import Mathlib

/-!
Verification of the lexorank key codec, the fractional indexing algorithm
(`between`), and the row-insertion / closure-maintenance engine
(`insertElement`) of the hila repository.

Keys are byte sequences modelled as `List Nat` with bytes in `0x00..0xFF`.
`Uint8Array` operations are modelled faithfully:
`new Uint8Array(n)` is a zero-filled list, `result.set(src)` overlays `src`
at offset 0, and an indexed write `result[i] = v` is `List.set`, which — like
a JavaScript typed-array write — silently drops the write when `i` is out of
bounds.  Fallible functions (the source `throw`s) return `Except String`.
-/

deriving instance DecidableEq for Except

namespace Hila

/-- Byte-wise lexicographic comparison of two keys; if all compared bytes
match up to the shorter length, the shorter key sorts first.
Mirrors `compareKeys` in `src/core/lexorank.ts`. -/
def compareKeys : List Nat → List Nat → Int
  | [], [] => 0
  | [], _ :: _ => -1
  | _ :: _, [] => 1
  | x :: xs, y :: ys =>
    if x < y then -1
    else if x > y then 1
    else compareKeys xs ys

/-- `makeKey`: concatenates each segment with an appended 0x00 terminator,
failing on the first segment that contains a 0x00 byte.
Mirrors `makeKey` in `src/core/lexorank.ts`. -/
def makeKey : List (List Nat) → Except String (List Nat)
  | [] => .ok []
  | s :: rest =>
    if 0 ∈ s then .error "Segment contains invalid 0x00 byte"
    else do
      let tail ← makeKey rest
      .ok (s ++ [0] ++ tail)

/-- Worker for `parseKey`: `cur` holds the bytes of the segment read since
the last terminator.  A segment is emitted only when a terminator is found
(so an unterminated tail is dropped) and only when non-empty (so empty
segments between two consecutive terminators are skipped). -/
def parseKeyGo : List Nat → List Nat → List (List Nat)
  | [], _ => []
  | b :: rest, cur =>
    if b = 0 then
      if cur = [] then parseKeyGo rest [] else cur :: parseKeyGo rest []
    else
      parseKeyGo rest (cur ++ [b])

/-- `parseKey`: splits a key on 0x00 terminators into its segments.
Mirrors `parseKey` in `src/core/lexorank.ts`. -/
def parseKey (key : List Nat) : List (List Nat) :=
  parseKeyGo key []

/-- `nextPrefix`: replaces the final 0x00 terminator with 0x01, giving the
exclusive upper bound of the subtree rooted at the given key.
Mirrors `nextPrefix` in `src/core/lexorank.ts`. -/
def nextPrefix (p : List Nat) : Except String (List Nat) :=
  if p.length = 0 then
    .error "Cannot get nextPrefix of empty key"
  else if p.getLast? ≠ some 0 then
    .error "Key must end with 0x00 terminator"
  else
    .ok (p.dropLast ++ [1])

/-- Index of the first position where the two keys differ
(the `diffIndex` scan inside `between`). -/
def firstDiff : List Nat → List Nat → Nat
  | x :: xs, y :: ys => if x = y then firstDiff xs ys + 1 else 0
  | _, _ => 0

/-- First index `≥ i` holding a 0x00 byte in `a` (or `a.length`):
the `segmentEnd` scan inside `between`. -/
def segmentEndFrom (a : List Nat) (i : Nat) : Nat :=
  i + ((a.drop i).takeWhile (fun x => x ≠ 0)).length

/-- A freshly allocated, zero-filled `Uint8Array` of length `n`. -/
def zeros (n : Nat) : List Nat :=
  List.replicate n 0

/-- `dst.set(src)` at offset 0: overlay `src` on the front of `dst`. -/
def overlay0 (src dst : List Nat) : List Nat :=
  src ++ dst.drop src.length

/-- The fractional indexing algorithm: generates a key intended to sort
lexicographically between `a` and `b`, with the empty list meaning "no
bound".  A direct transcription of `between` in `src/core/lexorank.ts`,
including the out-of-bounds terminator writes of the parent-child branch
(dropped by `List.set`, exactly as a typed-array write is dropped). -/
def between (a b : List Nat) : Except String (List Nat) :=
  if a.length = 0 ∧ b.length = 0 then
    .ok [0x80, 0x00]
  else if a.length = 0 then
    if b.length = 0 then
      .error "Cannot insert when both keys are empty (handled earlier)"
    else
      let firstByte := b.getD 0 0
      if firstByte > 0x01 then
        .ok [firstByte / 2, 0x00]
      else
        .ok [0x01, 0x80, 0x00]
  else if b.length = 0 then
    if a.length < 2 then
      .error "Invalid key: must have at least one byte plus terminator"
    else
      let lastByteIndex := a.length - 2
      let lastByte := a.getD lastByteIndex 0
      if lastByte < 0xff then
        .ok (a.set lastByteIndex (lastByte + (0xff - lastByte) / 2 + 1))
      else
        .ok (((overlay0 (a.take (a.length - 1)) (zeros (a.length + 1))).set
          (a.length - 1) 0x80).set a.length 0x00)
  else
    let diffIndex := firstDiff a b
    if diffIndex < a.length ∧ a.getD diffIndex 0 = 0x00 then
      let bNextByte := if diffIndex < b.length then b.getD diffIndex 0 else 0x00
      if bNextByte > 0x01 then
        .ok (((overlay0 (a.take (diffIndex + 1)) (zeros (diffIndex + 2))).set
          (diffIndex + 1) (bNextByte / 2)).set (diffIndex + 2) 0x00)
      else
        .ok ((((overlay0 (a.take (diffIndex + 1)) (zeros (diffIndex + 3))).set
          (diffIndex + 1) 0x01).set (diffIndex + 2) 0x80).set (diffIndex + 3) 0x00)
    else if diffIndex < b.length ∧ b.getD diffIndex 0 = 0x00 then
      .error "Invalid ordering: second key is prefix of first key"
    else
      let aByte := if diffIndex < a.length then a.getD diffIndex 0 else 0x00
      let bByte := if diffIndex < b.length then b.getD diffIndex 0 else 0x00
      if (bByte : Int) - (aByte : Int) > 1 then
        .ok (((overlay0 (a.take diffIndex) (zeros (diffIndex + 2))).set
          diffIndex (aByte + (bByte - aByte) / 2)).set (diffIndex + 1) 0x00)
      else
        let segmentEnd := segmentEndFrom a diffIndex
        .ok (((overlay0 (a.take segmentEnd) (zeros (segmentEnd + 2))).set
          segmentEnd 0x80).set (segmentEnd + 1) 0x00)

/-- Recognizer state machine for the spec's key invariant.  The flag is
`true` while inside a segment (at least one content byte read since the
last terminator).  A key must end immediately after a terminator, every
content byte is in `0x01..0xFF`, and no segment is empty. -/
def validKeyAux : List Nat → Bool → Bool
  | [], inSeg => !inSeg
  | b :: rest, false => if b = 0 then false else decide (b ≤ 0xff) && validKeyAux rest true
  | b :: rest, true => if b = 0 then validKeyAux rest false
                       else decide (b ≤ 0xff) && validKeyAux rest true

/-- Spec §3 key invariant: a key is non-empty, is a concatenation of one or
more segments each consisting of 1+ bytes in `0x01..0xFF` followed by a
single 0x00 terminator; in particular its final byte is 0x00 and no segment
byte is 0x00. -/
def ValidKey (k : List Nat) : Bool :=
  !k.isEmpty && validKeyAux k false

/-- One row of the global `ordering` table:
`(key BLOB PRIMARY KEY, matrix_id, element_kind, element_id)`. -/
structure OrderingRow where
  key : List Nat
  matrixId : Nat
  elementKind : Nat
  elementId : Nat
  deriving DecidableEq, Repr

/-- One row of a per-matrix closure table
`(ancestor_key, descendant_key, depth)`, tagged with the matrix id to model
the family of `mx_<id>_closure` tables in one relation. -/
structure ClosureRow where
  matrixId : Nat
  ancestorKey : List Nat
  descendantKey : List Nat
  depth : Nat
  deriving DecidableEq, Repr

/-- The committed contents of the backing store.  Rows are kept in
insertion order; an SQL `INSERT` appends. -/
structure Store where
  ordering : List OrderingRow
  closure : List ClosureRow
  deriving DecidableEq, Repr

/-- The database connection: the committed store plus the draft of an open
transaction, if any.  Writes inside a transaction go to the draft;
`COMMIT` publishes it, `ROLLBACK` discards it. -/
structure Db where
  committed : Store
  txn : Option Store
  deriving DecidableEq, Repr

/-- `BEGIN TRANSACTION`: open a draft initialized from the committed store. -/
def execBegin (db : Db) : Db :=
  { db with txn := some db.committed }

/-- `COMMIT`: publish the draft. -/
def execCommit (db : Db) : Db :=
  match db.txn with
  | some s => { committed := s, txn := none }
  | none => db

/-- `ROLLBACK`: discard the draft. -/
def execRollback (db : Db) : Db :=
  { db with txn := none }

/-- Parameters of `insertElement` (optional keys are `Option`;
a `Uint8Array` argument, even an empty one, is truthy in the source's
`if (prevKey && nextKey)` tests, so presence is exactly `some`). -/
structure InsertParams where
  matrixId : Nat
  parentKey : Option (List Nat)
  prevKey : Option (List Nat)
  nextKey : Option (List Nat)
  elementKind : Nat
  elementId : Nat
  deriving DecidableEq, Repr

/-- Keys of the ordering rows of matrix `m` satisfying `pred`
(the `WHERE` clause of the engine's `SELECT key FROM ordering` queries). -/
def keysWhere (s : Store) (m : Nat) (pred : List Nat → Bool) : List (List Nat) :=
  (s.ordering.filter (fun r => r.matrixId = m && pred r.key)).map (·.key)

/-- `ORDER BY key ASC LIMIT 1`: the minimum key of a list under
`compareKeys` (SQLite BLOB comparison is the same byte-lexicographic
order). -/
def minKeyOpt (ks : List (List Nat)) : Option (List Nat) :=
  ks.foldl
    (fun acc k =>
      match acc with
      | none => some k
      | some m => if compareKeys k m = -1 then some k else acc)
    none

/-- `ORDER BY key DESC LIMIT 1`: the maximum key of a list under
`compareKeys`. -/
def maxKeyOpt (ks : List (List Nat)) : Option (List Nat) :=
  ks.foldl
    (fun acc k =>
      match acc with
      | none => some k
      | some m => if compareKeys k m = 1 then some k else acc)
    none

/-- `INSERT INTO ordering`: fails on the schema's CHECK constraint
(`length(key) > 0 AND` final byte `0x00`, `element_kind IN (0,1)`) or on a
`PRIMARY KEY (key)` violation; otherwise appends the row. -/
def insertOrderingRow (s : Store) (row : OrderingRow) : Except String Store :=
  if row.key.length = 0 ∨ row.key.getLast? ≠ some 0 then
    .error "CHECK constraint failed: ordering key"
  else if ¬(row.elementKind = 0 ∨ row.elementKind = 1) then
    .error "CHECK constraint failed: element_kind"
  else if s.ordering.any (fun r => r.key = row.key) then
    .error "UNIQUE constraint failed: ordering.key"
  else
    .ok { s with ordering := s.ordering ++ [row] }

/-- `INSERT INTO mx_<m>_closure`: fails on a
`PRIMARY KEY (ancestor_key, descendant_key)` violation; otherwise appends
the row (`depth ≥ 0` holds by the `Nat` type). -/
def insertClosureRow (s : Store) (c : ClosureRow) : Except String Store :=
  if s.closure.any (fun r =>
      r.matrixId = c.matrixId && r.ancestorKey = c.ancestorKey &&
        r.descendantKey = c.descendantKey) then
    .error "UNIQUE constraint failed: closure primary key"
  else
    .ok { s with closure := s.closure ++ [c] }

/-- The rows of matrix `m`'s closure table whose descendant is `k`
(the ancestors query of the closure-maintenance step). -/
def ancestorRowsOf (s : Store) (m : Nat) (k : List Nat) : List ClosureRow :=
  s.closure.filter (fun r => r.matrixId = m && r.descendantKey = k)

/-- The closure-maintenance loop: for each fetched ancestor row
`(X, parent, d)` insert `(X, newKey, d+1)`. -/
def insertAncestorRows (s : Store) (m : Nat) (k : List Nat) :
    List ClosureRow → Except String Store
  | [] => .ok s
  | r :: rest => do
    let s' ← insertClosureRow s
      { matrixId := m, ancestorKey := r.ancestorKey, descendantKey := k,
        depth := r.depth + 1 }
    insertAncestorRows s' m k rest

/-- Bound resolution and key computation of `insertElement`
(src/unnamed/part_009): the five-way case ladder over
`prevKey`/`nextKey`/`parentKey`, reading neighbor keys from the store and
calling `between` / `makeKey` / `nextPrefix` exactly as the source does. -/
def computeOrderingKey (s : Store) (p : InsertParams) : Except String (List Nat) :=
  match p.prevKey, p.nextKey with
  | some prev, some next =>
    between prev next
  | some prev, none =>
    match p.parentKey with
    | some parent => do
      let parentUpperBound ← nextPrefix parent
      let upperBound :=
        match minKeyOpt (keysWhere s p.matrixId (fun k =>
            compareKeys k prev = 1 && compareKeys k parentUpperBound = -1)) with
        | some candidateKey =>
          if (parseKey candidateKey).length = (parseKey parent).length + 1 then
            candidateKey
          else
            []
        | none => []
      between prev upperBound
    | none =>
      let upperBound :=
        match minKeyOpt (keysWhere s p.matrixId (fun k => compareKeys k prev = 1)) with
        | some candidateKey =>
          if (parseKey candidateKey).length > (parseKey prev).length then
            []
          else
            candidateKey
        | none => []
      between prev upperBound
  | none, some next =>
    match p.parentKey with
    | some parent =>
      let lowerBound :=
        match maxKeyOpt (keysWhere s p.matrixId (fun k =>
            compareKeys k next = -1 && compareKeys k parent = 1)) with
        | some candidateKey =>
          if (parseKey candidateKey).length = (parseKey parent).length + 1 then
            candidateKey
          else
            parent
        | none => parent
      between lowerBound next
    | none =>
      let lowerBound :=
        match maxKeyOpt (keysWhere s p.matrixId (fun k => compareKeys k next = -1)) with
        | some candidateKey =>
          if (parseKey candidateKey).length ≠ (parseKey next).length then
            []
          else
            candidateKey
        | none => []
      between lowerBound next
  | none, none =>
    match p.parentKey with
    | some parent => do
      let upperBound ← nextPrefix parent
      match minKeyOpt (keysWhere s p.matrixId (fun k =>
          compareKeys k parent = 1 && compareKeys k upperBound = -1)) with
      | some nextChild => between parent nextChild
      | none => makeKey (parseKey parent ++ [[0x80]])
    | none =>
      let lastKey := (maxKeyOpt (keysWhere s p.matrixId (fun _ => true))).getD []
      between lastKey []

/-- The body of `insertElement`'s `try` block: compute the ordering key,
write the ordering row, write the depth-0 closure self row, and, when a
parent key was given, propagate the parent's ancestor rows. -/
def insertElementSteps (s : Store) (p : InsertParams) :
    Except String (Store × List Nat) := do
  let orderingKey ← computeOrderingKey s p
  let s1 ← insertOrderingRow s
    { key := orderingKey, matrixId := p.matrixId, elementKind := p.elementKind,
      elementId := p.elementId }
  let s2 ← insertClosureRow s1
    { matrixId := p.matrixId, ancestorKey := orderingKey,
      descendantKey := orderingKey, depth := 0 }
  match p.parentKey with
  | some parent => do
    let s3 ← insertAncestorRows s2 p.matrixId orderingKey
      (ancestorRowsOf s2 p.matrixId parent)
    .ok (s3, orderingKey)
  | none => .ok (s2, orderingKey)

/-- `insertElement`: `BEGIN TRANSACTION`, run the steps against the draft,
`COMMIT` on success, `ROLLBACK` and surface the error on failure.
Mirrors `insertElement` in src/unnamed/part_009. -/
def insertElement (db : Db) (p : InsertParams) : Db × Except String (List Nat) :=
  let db1 := execBegin db
  match db1.txn with
  | none => (db1, .error "no open transaction")
  | some draft =>
    match insertElementSteps draft p with
    | .ok (s', k) => (execCommit { db1 with txn := some s' }, .ok k)
    | .error e => (execRollback db1, .error e)

/-- Insert a key into a list sorted by `compareKeys`. -/
def insertSorted (k : List Nat) : List (List Nat) → List (List Nat)
  | [] => [k]
  | x :: xs => if compareKeys k x = -1 then k :: x :: xs else x :: insertSorted k xs

/-- Sort keys by `compareKeys` (`ORDER BY key` of the read-side queries). -/
def sortKeys : List (List Nat) → List (List Nat)
  | [] => []
  | x :: xs => insertSorted x (sortKeys xs)

/-- The key-ordered listing of the subtree of `root` in matrix `m`:
all keys in `[root, nextPrefix root)`. -/
def subtreeKeys (s : Store) (m : Nat) (root bound : List Nat) : List (List Nat) :=
  sortKeys (keysWhere s m (fun k =>
    compareKeys root k ≤ 0 && compareKeys k bound = -1))

/-- The closure rows of matrix `m` having `k` as descendant, as
(ancestor, depth) pairs in table order. -/
def closureAncestorsOf (s : Store) (m : Nat) (k : List Nat) : List (List Nat × Nat) :=
  (ancestorRowsOf s m k).map (fun r => (r.ancestorKey, r.depth))

/-- `X`'s bytes are a strict prefix of `Y`'s bytes ending exactly at a
segment terminator (spec §3: the derived parent/ancestor relation). -/
def strictPrefixAtTerminator (x y : List Nat) : Bool :=
  decide (x.length < y.length) && decide (y.take x.length = x) &&
    decide (x.getLast? = some 0)

/-- Number of segments of a key. -/
def segCount (k : List Nat) : Nat :=
  (parseKey k).length

/-- The empty database: no rows, no open transaction. -/
def emptyDb : Db :=
  { committed := { ordering := [], closure := [] }, txn := none }

/-- The repeated-insertion chain of the extension-correctness property:
`chainUpper 0` is the fixed upper key `[0x81, 0x00]`, and each following
step is `between [0x80, 0x00] (previous result)`. -/
def chainUpper : Nat → Except String (List Nat)
  | 0 => .ok [0x81, 0x00]
  | n + 1 => do
    let u ← chainUpper n
    between [0x80, 0x00] u

end Hila

namespace Hila


lemma compareKeys_nil_le (b : List Nat) : compareKeys [] b ≤ 0 := by
  cases b <;> simp [compareKeys]

lemma compareKeys_nil_ge (b : List Nat) : 0 ≤ compareKeys b [] := by
  cases b <;> simp [compareKeys]

/-- The key interval `[Q ++ [0], Q ++ [1])` under `compareKeys` consists of
exactly the keys having `Q ++ [0]` as a (byte) prefix. -/
lemma range_iff_isPrefix (Q K : List Nat) :
    (compareKeys (Q ++ [0]) K ≤ 0 ∧ compareKeys K (Q ++ [1]) < 0) ↔
      (Q ++ [0]) <+: K := by
  induction Q generalizing K with
  | nil =>
    cases K with
    | nil => simp [compareKeys]
    | cons k K' =>
      rcases Nat.eq_zero_or_pos k with hk | hk
      · subst hk
        simp only [List.nil_append, compareKeys, List.cons_prefix_cons]
        have h1 := compareKeys_nil_le K'
        simp [h1]
      · rcases Nat.lt_or_ge 1 k with hk1 | hk1
        · have hne : ¬(k < 1) := by omega
          simp only [List.nil_append, compareKeys, List.cons_prefix_cons]
          simp [hk, hk1, hne]
          omega
        · have hk1' : k = 1 := by omega
          subst hk1'
          simp only [List.nil_append, compareKeys, List.cons_prefix_cons]
          have h2 := compareKeys_nil_ge K'
          simp
          omega
  | cons q Q' ih =>
    cases K with
    | nil =>
      simp only [List.cons_append, compareKeys]
      constructor
      · rintro ⟨h1, -⟩; omega
      · intro h
        exact absurd (List.IsPrefix.length_le h) (by simp)
    | cons k K' =>
      rcases lt_trichotomy q k with hqk | hqk | hqk
      · have h1 : ¬(k < q) := by omega
        simp only [List.cons_append, compareKeys, List.cons_prefix_cons]
        simp [hqk, h1]
        omega
      · subst hqk
        simp only [List.cons_append, compareKeys, List.cons_prefix_cons]
        simpa using ih K'
      · simp only [List.cons_append, compareKeys, List.cons_prefix_cons]
        simp [hqk, Nat.not_lt.mpr (Nat.le_of_lt hqk)]
        omega

lemma validKeyAux_getLast (k : List Nat) :
    ∀ inSeg, validKeyAux k inSeg = true → k ≠ [] → k.getLast? = some 0 := by
  induction k with
  | nil => intro inSeg _ h; exact absurd rfl h
  | cons x rest ih =>
    intro inSeg h _
    by_cases hx : x = 0
    · subst hx
      cases inSeg with
      | false => simp [validKeyAux] at h
      | true =>
        rw [validKeyAux, if_pos rfl] at h
        cases rest with
        | nil => simp
        | cons y t =>
          rw [List.getLast?_cons_cons]
          exact ih false h (by simp)
    · have hrest : validKeyAux rest true = true := by
        cases inSeg <;> rw [validKeyAux, if_neg hx] at h <;>
          exact (Bool.and_eq_true _ _ |>.mp h).2
      cases rest with
      | nil => simp [validKeyAux] at hrest
      | cons y t =>
        rw [List.getLast?_cons_cons]
        exact ih true hrest (by simp)

lemma validKey_ne_nil {k : List Nat} (h : ValidKey k = true) : k ≠ [] := by
  intro hk
  subst hk
  simp [ValidKey] at h

lemma validKey_getLast {k : List Nat} (h : ValidKey k = true) :
    k.getLast? = some 0 := by
  have hne := validKey_ne_nil h
  simp only [ValidKey, Bool.and_eq_true] at h
  exact validKeyAux_getLast k false h.2 hne

lemma exists_concat_of_getLast (l : List Nat) (h : l.getLast? = some 0) :
    ∃ q, l = q ++ [0] ∧ l.dropLast = q := by
  induction l with
  | nil => simp at h
  | cons x rest ih =>
    cases rest with
    | nil =>
      simp at h
      exact ⟨[], by simp [h], by simp⟩
    | cons y t =>
      rw [List.getLast?_cons_cons] at h
      rcases ih h with ⟨q, hq, hd⟩
      exact ⟨x :: q, by simp [hq], by rw [List.dropLast_cons₂, hd]⟩

/-- Claim C8: for every valid key `P`, `nextPrefix P` is `P` with its final
0x00 byte replaced by 0x01, and a key `K` satisfies
`P ≤ K < nextPrefix P` under `compareKeys` if and only if `K = P` or `P`'s
bytes are a strict prefix of `K`'s bytes (a descendant of `P`). -/
theorem nextPrefix_subtree_range (P K : List Nat) (h : ValidKey P = true) :
    nextPrefix P = .ok (P.dropLast ++ [1]) ∧
    ((compareKeys P K ≤ 0 ∧ compareKeys K (P.dropLast ++ [1]) < 0) ↔
      (K = P ∨ (P <+: K ∧ P ≠ K))) := by
  have hlast := validKey_getLast h
  have hne := validKey_ne_nil h
  obtain ⟨Q, hPQ, hdrop⟩ := exists_concat_of_getLast P hlast
  constructor
  · rw [nextPrefix, if_neg (by simp [List.length_eq_zero, hne]), if_neg (by simp [hlast])]
  · rw [hdrop, hPQ]
    rw [range_iff_isPrefix Q K]
    constructor
    · intro hp
      by_cases hEq : K = Q ++ [0]
      · exact Or.inl hEq
      · exact Or.inr ⟨hp, fun hq => hEq hq.symm⟩
    · rintro (rfl | ⟨hp, -⟩)
      · exact List.prefix_refl _
      · exact hp

/-- Witness for C8 at `P = [0x80, 0x00]`, `K = [0x80, 0x00, 0x40, 0x00]`. -/
theorem nextPrefix_subtree_range_witness :
    nextPrefix [0x80, 0x00] = .ok ([0x80, 0x00].dropLast ++ [1]) ∧
    ((compareKeys [0x80, 0x00] [0x80, 0x00, 0x40, 0x00] ≤ 0 ∧
        compareKeys [0x80, 0x00, 0x40, 0x00] ([0x80, 0x00].dropLast ++ [1]) < 0) ↔
      ([0x80, 0x00, 0x40, 0x00] = [0x80, 0x00] ∨
        ([0x80, 0x00] <+: [0x80, 0x00, 0x40, 0x00] ∧
          [0x80, 0x00] ≠ [0x80, 0x00, 0x40, 0x00]))) :=
  nextPrefix_subtree_range [0x80, 0x00] [0x80, 0x00, 0x40, 0x00] (by decide)

lemma makeKey_error_of_zero (segs : List (List Nat)) (h : ∃ s ∈ segs, 0 ∈ s) :
    makeKey segs = .error "Segment contains invalid 0x00 byte" := by
  induction segs with
  | nil => simp at h
  | cons s rest ih =>
    by_cases hs : 0 ∈ s
    · simp [makeKey, hs]
    · rcases h with ⟨t, ht, ht0⟩
      rcases List.mem_cons.mp ht with rfl | htr
      · exact absurd ht0 hs
      · rw [makeKey, if_neg hs, ih ⟨t, htr, ht0⟩]
        rfl

lemma makeKey_ok_of_clean (segs : List (List Nat)) (h : ∀ s ∈ segs, 0 ∉ s) :
    makeKey segs = .ok ((segs.map (fun s => s ++ [0])).flatten) := by
  induction segs with
  | nil => simp [makeKey]
  | cons s rest ih =>
    rw [makeKey, if_neg (h s (by simp))]
    rw [ih (fun t ht => h t (by simp [ht]))]
    rfl

lemma parseKeyGo_segment (s : List Nat) :
    ∀ (rest cur : List Nat), 0 ∉ s → cur ++ s ≠ [] →
      parseKeyGo (s ++ 0 :: rest) cur = (cur ++ s) :: parseKeyGo rest [] := by
  induction s with
  | nil =>
    intro rest cur _ hne
    have hcur : ¬(cur = []) := by simpa using hne
    simp [parseKeyGo, hcur]
  | cons b s' ih =>
    intro rest cur h0 _
    have hb : b ≠ 0 := fun hb => h0 (by simp [hb])
    rw [List.cons_append, parseKeyGo, if_neg hb]
    rw [ih rest (cur ++ [b]) (fun hm => h0 (by simp [hm])) (by simp)]
    simp

lemma parseKey_of_makeKey (segs : List (List Nat))
    (h : ∀ s ∈ segs, s ≠ [] ∧ 0 ∉ s) :
    parseKey ((segs.map (fun s => s ++ [0])).flatten) = segs := by
  induction segs with
  | nil => simp [parseKey, parseKeyGo]
  | cons s rest ih =>
    have hs := h s (by simp)
    simp only [List.map_cons, List.flatten_cons, List.append_assoc,
      List.singleton_append]
    rw [parseKey, parseKeyGo_segment s _ [] hs.2 (by simpa using hs.1)]
    rw [List.nil_append]
    exact congrArg (s :: ·) (ih (fun t ht => h t (by simp [ht])))

/-- Claim C10: `makeKey` fails with the invalid-segment error whenever some
segment contains a 0x00 byte, and for every sequence of non-empty, 0x00-free
segments, `parseKey (makeKey segments)` returns exactly those segments. -/
theorem makeKey_parseKey_roundtrip (segs : List (List Nat)) :
    ((∃ s ∈ segs, 0 ∈ s) →
      makeKey segs = .error "Segment contains invalid 0x00 byte") ∧
    ((∀ s ∈ segs, s ≠ [] ∧ 0 ∉ s) →
      ∃ k, makeKey segs = .ok k ∧ parseKey k = segs) := by
  constructor
  · exact makeKey_error_of_zero segs
  · intro h
    refine ⟨(segs.map (fun s => s ++ [0])).flatten, ?_, parseKey_of_makeKey segs h⟩
    exact makeKey_ok_of_clean segs (fun s hs => (h s hs).2)

/-- Witness for C10: a segment containing 0x00 is rejected, and the clean
segment list `[[0x80, 0x90], [0x40]]` round-trips. -/
theorem makeKey_parseKey_roundtrip_witness :
    makeKey [[0x80, 0x00, 0x40]] = .error "Segment contains invalid 0x00 byte" ∧
    ∃ k, makeKey [[0x80, 0x90], [0x40]] = .ok k ∧
      parseKey k = [[0x80, 0x90], [0x40]] :=
  ⟨(makeKey_parseKey_roundtrip [[0x80, 0x00, 0x40]]).1 ⟨[0x80, 0x00, 0x40], by decide⟩,
   (makeKey_parseKey_roundtrip [[0x80, 0x90], [0x40]]).2 (by decide)⟩

lemma validKey_head {b0 : Nat} {rest : List Nat}
    (h : ValidKey (b0 :: rest) = true) : b0 ≠ 0 := by
  simp only [ValidKey, Bool.and_eq_true, validKeyAux] at h
  intro hb
  rw [if_pos hb] at h
  exact absurd h.2 (by simp)

/-- Claim C4 (amended): for every non-empty valid key `b`, if `b`'s first
byte is greater than 0x01 then `between(empty, b)` is the one-byte segment
key at half that value and is strictly less than `b`; otherwise (first byte
0x01) the result is the extended two-byte segment key `[0x01, 0x80, 0x00]`,
which is not in general less than `b`. -/
theorem between_lower_boundary (b : List Nat) (h : ValidKey b = true) :
    (2 ≤ b.headD 0 →
      between [] b = .ok [b.headD 0 / 2, 0x00] ∧
        compareKeys [b.headD 0 / 2, 0x00] b = -1) ∧
    (b.headD 0 < 2 → between [] b = .ok [0x01, 0x80, 0x00]) := by
  cases b with
  | nil => exact absurd rfl (validKey_ne_nil h)
  | cons b0 rest =>
    have hb0 := validKey_head h
    have hheadD : (b0 :: rest).headD 0 = b0 := rfl
    rw [hheadD]
    constructor
    · intro h2
      have hgt : b0 > 1 := by omega
      have hdiv : b0 / 2 < b0 := Nat.div_lt_self (by omega) (by omega)
      constructor
      · simp [between, hgt]
      · simp [compareKeys, hdiv]
    · intro h2
      have hb1 : b0 = 1 := by omega
      subst hb1
      simp [between]

/-- Counterexample to C4 as stated: `b = [0x01, 0x00]` is a non-empty valid
key (the minimum valid key), yet `between(empty, b)` returns
`[0x01, 0x80, 0x00]`, which sorts strictly after `b`. -/
theorem between_lower_boundary_counterexample :
    ValidKey [0x01, 0x00] = true ∧
    between [] [0x01, 0x00] = .ok [0x01, 0x80, 0x00] ∧
    compareKeys [0x01, 0x80, 0x00] [0x01, 0x00] = 1 := by
  decide

/-- Witness for the amended C4 at `b = [0x04, 0x00]` (first byte > 0x01)
and in the same instantiation the vacuous low branch. -/
theorem between_lower_boundary_witness :
    (2 ≤ [0x04, 0x00].headD 0 →
      between [] [0x04, 0x00] = .ok [[0x04, 0x00].headD 0 / 2, 0x00] ∧
        compareKeys [[0x04, 0x00].headD 0 / 2, 0x00] [0x04, 0x00] = -1) ∧
    ([0x04, 0x00].headD 0 < 2 → between [] [0x04, 0x00] = .ok [0x01, 0x80, 0x00]) :=
  between_lower_boundary [0x04, 0x00] (by decide)

/-- Claim C1: the ordering law fails on the code.  `a = [0x80, 0x00]` and
`b = [0x80, 0x00, 0x01, 0x00]` are valid keys with `compareKeys a b < 0`
(`a` is `b`'s parent and `b`'s child segment starts with 0x01), yet
`between a b` returns `[0x80, 0x00, 0x80, 0x00]`, which sorts strictly
after `b` — contradicting the law and the function's own documented
contract that the result sorts between its arguments. -/
theorem between_ordering_law_failure :
    ValidKey [0x80, 0x00] = true ∧
    ValidKey [0x80, 0x00, 0x01, 0x00] = true ∧
    compareKeys [0x80, 0x00] [0x80, 0x00, 0x01, 0x00] = -1 ∧
    between [0x80, 0x00] [0x80, 0x00, 0x01, 0x00] = .ok [0x80, 0x00, 0x80, 0x00] ∧
    compareKeys [0x80, 0x00, 0x80, 0x00] [0x80, 0x00, 0x01, 0x00] = 1 := by
  decide

/-- Claim C3: well-formedness is not preserved.  On the valid keys
`a = [0x80, 0x00]` and `b = [0x80, 0x02, 0x00]` the parent-child branch of
`between` allocates a buffer one byte too short and its terminator write is
dropped (out-of-bounds typed-array write), so the result
`[0x80, 0x00, 0x01]` does not end in 0x00. -/
theorem between_wellformedness_failure :
    ValidKey [0x80, 0x00] = true ∧
    ValidKey [0x80, 0x02, 0x00] = true ∧
    between [0x80, 0x00] [0x80, 0x02, 0x00] = .ok [0x80, 0x00, 0x01] ∧
    [0x80, 0x00, 0x01].getLast? = some 0x01 ∧
    ValidKey [0x80, 0x00, 0x01] = false := by
  decide

/-- Claim C5: repeated insertion between `[0x80, 0x00]` and the most recent
result breaks well before 20 iterations.  The first call extends correctly,
but iteration 2 produces `[0x80, 0x00, 0x40]` — not a valid key (missing
terminator) — and iteration 9 produces `[0x80, 0x00, 0x80, 0x00]`, which is
not strictly below its upper argument `[0x80, 0x00, 0x01, 0x00]`. -/
theorem between_extension_iteration_failure :
    (between [0x80, 0x00] [0x81, 0x00] = .ok [0x80, 0x80, 0x00] ∧
      [0x80, 0x00].length < [0x80, 0x80, 0x00].length ∧
      [0x81, 0x00].length < [0x80, 0x80, 0x00].length ∧
      compareKeys [0x80, 0x00] [0x80, 0x80, 0x00] = -1 ∧
      compareKeys [0x80, 0x80, 0x00] [0x81, 0x00] = -1) ∧
    chainUpper 1 = .ok [0x80, 0x80, 0x00] ∧
    chainUpper 2 = .ok [0x80, 0x00, 0x40] ∧
    ValidKey [0x80, 0x00, 0x40] = false ∧
    chainUpper 8 = .ok [0x80, 0x00, 0x01, 0x00] ∧
    chainUpper 9 = .ok [0x80, 0x00, 0x80, 0x00] ∧
    compareKeys [0x80, 0x00, 0x80, 0x00] [0x80, 0x00, 0x01, 0x00] = 1 := by
  decide

/-- Insert of a root element with no bounds, kind 0, element id 1. -/
def insRoot : InsertParams :=
  { matrixId := 1, parentKey := none, prevKey := none, nextKey := none,
    elementKind := 0, elementId := 1 }

/-- Insert of a child of the root key `[0x80, 0x00]` with no neighbors. -/
def insChildOfRoot : InsertParams :=
  { matrixId := 1, parentKey := some [0x80, 0x00], prevKey := none,
    nextKey := none, elementKind := 0, elementId := 2 }

/-- Third insert with no bounds at all (root-level append). -/
def insNoBounds : InsertParams :=
  { matrixId := 1, parentKey := none, prevKey := none, nextKey := none,
    elementKind := 0, elementId := 3 }

/-- Third insert with parent `[0x80, 0x00]` and previous sibling
`[0x80, 0x00, 0x80, 0x00]` (the C2 of the spec's scenario). -/
def insAfterChild : InsertParams :=
  { matrixId := 1, parentKey := some [0x80, 0x00],
    prevKey := some [0x80, 0x00, 0x80, 0x00], nextKey := none,
    elementKind := 0, elementId := 3 }

/-- Database after inserting the root element into the empty store. -/
def dbAfterRoot : Db :=
  (insertElement emptyDb insRoot).1

/-- Database after additionally inserting the root's first child. -/
def dbAfterChild : Db :=
  (insertElement dbAfterRoot insChildOfRoot).1

/-- Claim C2: the closure/key equivalence invariant fails on the code.
Three successful insertions from the empty container — root (no bounds),
child of the root, then another no-bounds insert — leave keys
`X = [0x80, 0x00]` and `Y = [0x80, 0x00, 0xC0, 0x00]` in the ordering rows
with `X` a strict byte-prefix of `Y` ending at a segment terminator
(segment difference 1), yet no closure row `(X, Y, d)` with `d > 0` exists:
the no-bounds case reads the global maximum key (the child) instead of the
last root-level key its own comment asks for, and writes only the depth-0
closure row. -/
theorem closure_key_equivalence_failure :
    (insertElement emptyDb insRoot).2 = .ok [0x80, 0x00] ∧
    (insertElement dbAfterRoot insChildOfRoot).2 = .ok [0x80, 0x00, 0x80, 0x00] ∧
    (insertElement dbAfterChild insNoBounds).2 = .ok [0x80, 0x00, 0xC0, 0x00] ∧
    ((insertElement dbAfterChild insNoBounds).1.committed.ordering.map
        (fun r => r.key))
      = [[0x80, 0x00], [0x80, 0x00, 0x80, 0x00], [0x80, 0x00, 0xC0, 0x00]] ∧
    strictPrefixAtTerminator [0x80, 0x00] [0x80, 0x00, 0xC0, 0x00] = true ∧
    segCount [0x80, 0x00, 0xC0, 0x00] = segCount [0x80, 0x00] + 1 ∧
    ((insertElement dbAfterChild insNoBounds).1.committed.closure.all
        (fun r => !(decide (r.ancestorKey = [0x80, 0x00]) &&
          decide (r.descendantKey = [0x80, 0x00, 0xC0, 0x00]) &&
          decide (0 < r.depth)))) = true := by
  decide

/-- Claim C6: the three-insert scenario.  Root R gets key `[0x80, 0x00]`,
its first child C1 gets `[0x80, 0x00, 0x80, 0x00]`, and C2 (parent R,
previous sibling C1) gets `[0x80, 0x00, 0xC0, 0x00]`, strictly between
C1's key and `nextPrefix R = [0x80, 0x01]`; the key-ordered listing of R's
subtree is `[R, C1, C2]` and the closure rows with C2 as descendant are
exactly `(C2, C2, 0)` and `(R, C2, 1)`. -/
theorem three_insert_scenario :
    (insertElement emptyDb insRoot).2 = .ok [0x80, 0x00] ∧
    (insertElement dbAfterRoot insChildOfRoot).2 = .ok [0x80, 0x00, 0x80, 0x00] ∧
    (insertElement dbAfterChild insAfterChild).2 = .ok [0x80, 0x00, 0xC0, 0x00] ∧
    nextPrefix [0x80, 0x00] = .ok [0x80, 0x01] ∧
    compareKeys [0x80, 0x00, 0x80, 0x00] [0x80, 0x00, 0xC0, 0x00] = -1 ∧
    compareKeys [0x80, 0x00, 0xC0, 0x00] [0x80, 0x01] = -1 ∧
    subtreeKeys (insertElement dbAfterChild insAfterChild).1.committed 1
        [0x80, 0x00] [0x80, 0x01]
      = [[0x80, 0x00], [0x80, 0x00, 0x80, 0x00], [0x80, 0x00, 0xC0, 0x00]] ∧
    closureAncestorsOf (insertElement dbAfterChild insAfterChild).1.committed 1
        [0x80, 0x00, 0xC0, 0x00]
      = [([0x80, 0x00, 0xC0, 0x00], 0), ([0x80, 0x00], 1)] := by
  decide

lemma ok_bind {α β : Type} (a : α) (f : α → Except String β) :
    (Except.ok a >>= f) = f a := rfl

lemma error_bind {α β : Type} (e : String) (f : α → Except String β) :
    ((Except.error e : Except String α) >>= f) = .error e := rfl

/-- Claim C7: on any error, `insertElement` rolls the transaction back and
the database is left exactly as it was before the call (no ordering row and
no closure row of the failed insertion is visible), while the error
surfaces synchronously as the returned value. -/
theorem insertElement_rollback_on_error (db : Db) (p : InsertParams) (e : String)
    (h0 : db.txn = none) (h : (insertElement db p).2 = .error e) :
    (insertElement db p).1 = db := by
  simp only [insertElement, execBegin] at h ⊢
  cases hs : insertElementSteps db.committed p with
  | ok v => rw [hs] at h; simp at h
  | error e' =>
    show execRollback { committed := db.committed, txn := some db.committed } = db
    simp only [execRollback]
    cases db with
    | mk c t =>
      simp only at h0 ⊢
      rw [h0]

/-- Witness for C7: inserting with contradictory bounds
(`prevKey = [0x80, 0x40, 0x00]`, `nextKey = [0x80, 0x00, 0x50, 0x00]`,
where the next key is an ancestor-boundary prefix of the previous one)
raises the invalid-ordering error and leaves the empty database unchanged. -/
theorem insertElement_rollback_on_error_witness :
    (insertElement emptyDb
      { matrixId := 1, parentKey := none, prevKey := some [0x80, 0x40, 0x00],
        nextKey := some [0x80, 0x00, 0x50, 0x00], elementKind := 0,
        elementId := 7 }).1 = emptyDb :=
  insertElement_rollback_on_error emptyDb
    { matrixId := 1, parentKey := none, prevKey := some [0x80, 0x40, 0x00],
      nextKey := some [0x80, 0x00, 0x50, 0x00], elementKind := 0,
      elementId := 7 }
    "Invalid ordering: second key is prefix of first key"
    (by decide) (by decide)

lemma insertOrderingRow_ok {s s' : Store} {row : OrderingRow}
    (h : insertOrderingRow s row = .ok s') :
    s'.ordering = s.ordering ++ [row] ∧ s'.closure = s.closure := by
  unfold insertOrderingRow at h
  split at h
  · exact absurd h (by simp)
  · split at h
    · exact absurd h (by simp)
    · split at h
      · exact absurd h (by simp)
      · simp only [Except.ok.injEq] at h
        rw [← h]
        exact ⟨rfl, rfl⟩

lemma insertClosureRow_ok {s s' : Store} {c : ClosureRow}
    (h : insertClosureRow s c = .ok s') :
    s'.closure = s.closure ++ [c] ∧ s'.ordering = s.ordering := by
  unfold insertClosureRow at h
  split at h
  · exact absurd h (by simp)
  · simp only [Except.ok.injEq] at h
    rw [← h]
    exact ⟨rfl, rfl⟩

lemma insertAncestorRows_ok {m : Nat} {k : List Nat} :
    ∀ (rows : List ClosureRow) (s s' : Store),
      insertAncestorRows s m k rows = .ok s' →
      ∃ added, s'.ordering = s.ordering ∧ s'.closure = s.closure ++ added := by
  intro rows
  induction rows with
  | nil =>
    intro s s' h
    simp only [insertAncestorRows, Except.ok.injEq] at h
    exact ⟨[], by rw [← h], by rw [← h]; simp⟩
  | cons r rest ih =>
    intro s s' h
    rw [insertAncestorRows] at h
    cases hc : insertClosureRow s
        { matrixId := m, ancestorKey := r.ancestorKey, descendantKey := k,
          depth := r.depth + 1 } with
    | error e => rw [hc, error_bind] at h; exact absurd h (by simp)
    | ok s1 =>
      rw [hc, ok_bind] at h
      rcases ih s1 s' h with ⟨added, hord, hclo⟩
      rcases insertClosureRow_ok hc with ⟨hc1, hc2⟩
      refine ⟨{ matrixId := m, ancestorKey := r.ancestorKey,
                descendantKey := k, depth := r.depth + 1 } :: added, ?_, ?_⟩
      · rw [hord, hc2]
      · rw [hclo, hc1, List.append_assoc, List.singleton_append]

/-- Claim C9: every successful `insertElement` call appends exactly one new
row to the ordering table — with the returned key and the call's matrix,
kind and id — and only appends to the closure table, so every ordering row
and closure row present before the call is present unchanged after it. -/
theorem insertElement_frame (db : Db) (p : InsertParams) (k : List Nat)
    (h : (insertElement db p).2 = .ok k) :
    (insertElement db p).1.committed.ordering
      = db.committed.ordering ++
        [{ key := k, matrixId := p.matrixId, elementKind := p.elementKind,
           elementId := p.elementId }] ∧
    ∃ added, (insertElement db p).1.committed.closure
      = db.committed.closure ++ added := by
  simp only [insertElement, execBegin] at h ⊢
  cases hs : insertElementSteps db.committed p with
  | error e => rw [hs] at h; simp at h
  | ok v =>
    rw [hs] at h
    obtain ⟨s', k'⟩ := v
    simp only [Except.ok.injEq] at h
    subst h
    show s'.ordering
        = db.committed.ordering ++
          [{ key := k', matrixId := p.matrixId, elementKind := p.elementKind,
             elementId := p.elementId }] ∧
      ∃ added, s'.closure = db.committed.closure ++ added
    -- decompose the successful steps
    rw [insertElementSteps] at hs
    cases hck : computeOrderingKey db.committed p with
    | error e => rw [hck, error_bind] at hs; exact absurd hs (by simp)
    | ok key =>
      rw [hck, ok_bind] at hs
      cases hor : insertOrderingRow db.committed
          { key := key, matrixId := p.matrixId, elementKind := p.elementKind,
            elementId := p.elementId } with
      | error e => rw [hor, error_bind] at hs; exact absurd hs (by simp)
      | ok s1 =>
        rw [hor, ok_bind] at hs
        cases hcl : insertClosureRow s1
            { matrixId := p.matrixId, ancestorKey := key, descendantKey := key,
              depth := 0 } with
        | error e => rw [hcl, error_bind] at hs; exact absurd hs (by simp)
        | ok s2 =>
          rw [hcl, ok_bind] at hs
          rcases insertOrderingRow_ok hor with ⟨ho1, ho2⟩
          rcases insertClosureRow_ok hcl with ⟨hc1, hc2⟩
          cases hp : p.parentKey with
          | none =>
            rw [hp] at hs
            have hs' : (Except.ok (s2, key) : Except String (Store × List Nat))
                = Except.ok (s', k') := hs
            simp only [Except.ok.injEq, Prod.mk.injEq] at hs'
            rcases hs' with ⟨hs2, hkey⟩
            subst hkey
            rw [← hs2]
            exact ⟨by rw [hc2, ho1],
              ⟨[{ matrixId := p.matrixId, ancestorKey := key,
                  descendantKey := key, depth := 0 }], by rw [hc1, ho2]⟩⟩
          | some parent =>
            rw [hp] at hs
            have hs' : (do
                let s3 ← insertAncestorRows s2 p.matrixId key
                  (ancestorRowsOf s2 p.matrixId parent)
                Except.ok (s3, key) : Except String (Store × List Nat))
                = Except.ok (s', k') := hs
            cases ha : insertAncestorRows s2 p.matrixId key
                (ancestorRowsOf s2 p.matrixId parent) with
            | error e => rw [ha, error_bind] at hs'; exact absurd hs' (by simp)
            | ok s3 =>
              rw [ha, ok_bind] at hs'
              simp only [Except.ok.injEq, Prod.mk.injEq] at hs'
              rcases hs' with ⟨hs3, hkey⟩
              subst hkey
              rcases insertAncestorRows_ok _ _ _ ha with ⟨added, ha1, ha2⟩
              rw [← hs3]
              refine ⟨by rw [ha1, hc2, ho1],
                ⟨[{ matrixId := p.matrixId, ancestorKey := key,
                    descendantKey := key, depth := 0 }] ++ added, ?_⟩⟩
              rw [ha2, hc1, ho2, List.append_assoc]

/-- Witness for C9: the first root insert into the empty database appends
exactly the row for key `[0x80, 0x00]`. -/
theorem insertElement_frame_witness :
    (insertElement emptyDb insRoot).1.committed.ordering
      = emptyDb.committed.ordering ++
        [{ key := [0x80, 0x00], matrixId := insRoot.matrixId,
           elementKind := insRoot.elementKind,
           elementId := insRoot.elementId }] ∧
    ∃ added, (insertElement emptyDb insRoot).1.committed.closure
      = emptyDb.committed.closure ++ added :=
  insertElement_frame emptyDb insRoot [0x80, 0x00] (by decide)

end Hila
